import Mathlib

/-!
Shallow embedding of the `japanese-to-phonemes` repository
(src/jpn_to_phoneme.py and src/fix_and_align_phonemes.py).

Text is modelled as `List Char` (Python `str` indexed by Unicode code
points; a Lean `Char` is exactly a Unicode scalar value, `Char.toNat`
is Python's `ord`).  Byte streams are `List Nat` with every element a
byte value.  Fallible operations (the binary loader, fuel-bounded
loops) return `Option`.
-/

/-- Trie node shared by `TrieNode` (jpn_to_phoneme.py) and
`TrieNodeBuilder` (fix_and_align_phonemes.py): an optional value
(`phoneme` / `value`, `None` initially) and a map from character code
to child.  The Python `dict` keyed by `ord(char)` is modelled as an
association list keyed by the `Char` itself (Python only ever accesses
it by key via `.get`/`[]`, and the single iteration, in
`serialize_trie_node`, applies `sorted(...)`); our insert keeps the
list sorted by code point so that the builder's `sorted()` is the
identity on tries built by `insert`. -/
inductive Trie where
  | node (value : Option String) (children : List (Char × Trie)) : Trie

def Trie.value : Trie → Option String
  | .node v _ => v

def Trie.children : Trie → List (Char × Trie)
  | .node _ ch => ch

/-- A fresh `TrieNode()` / `TrieNodeBuilder()`: no value, no children. -/
def emptyTrie : Trie := .node none []

/-- `current.children.get(char_code)` from the Python sources. -/
def childGet (t : Trie) (c : Char) : Option Trie :=
  t.children.lookup c

/-- Insert/replace a child binding, keeping the list sorted by code point. -/
def insertChild (c : Char) (u : Trie) : List (Char × Trie) → List (Char × Trie)
  | [] => [(c, u)]
  | (k, w) :: r =>
    if c = k then (c, u) :: r
    else if c.toNat < k.toNat then (c, u) :: (k, w) :: r
    else (k, w) :: insertChild c u r

/-- `PhonemeConverter._insert`, `WordSegmenter._insert_word` (with value
`""`) and `TrieNodeBuilder.insert`: walk the key, creating missing
children, and store the value on the terminal node (overwriting any
previous value, last writer wins). -/
def Trie.insert : Trie → List Char → String → Trie
  | t, [], ph => .node (some ph) t.children
  | t, c :: rest, ph =>
    let child := (childGet t c).getD emptyTrie
    .node t.value (insertChild c (child.insert rest ph) t.children)

/-- Walk a key from a node and return the value stored at its end, if
any: "key `k` is in the trie with value `v`" is `findVal t k = some v`. -/
def findVal : Trie → List Char → Option String
  | t, [] => t.value
  | t, c :: r =>
    match childGet t c with
    | none => none
    | some child => findVal child r

/-- Inner while-loop of `PhonemeConverter.convert` (and
`convert_detailed`): walk the trie as far as the input allows,
remembering `(match_length, matched_phoneme)` of the deepest node whose
`phoneme is not None`.  `depth` plays the role of `i - pos` and `best`
of `(match_length, matched_phoneme)`, initially `(0, None)`. -/
def lookupLoop : Trie → List Char → Nat → Nat × Option String → Nat × Option String
  | _, [], _, best => best
  | t, c :: r, depth, best =>
    match childGet t c with
    | none => best
    | some child =>
      let best' := match child.value with
        | some p => (depth + 1, some p)
        | none => best
      lookupLoop child r (depth + 1) best'

/-- Outer while-loop of `PhonemeConverter.convert`, with explicit fuel
for the `while pos < len` loop (one unit per iteration; `none` means
the fuel ran out, which `convert_total` below shows never happens with
fuel `≥ |input|`).  Each iteration either consumes a positive match and
emits its phoneme, or copies the single code point through verbatim. -/
def convertLoop : Trie → List Char → Nat → Option (List String)
  | _, [], _ => some []
  | _, _ :: _, 0 => none
  | t, c :: r, fuel + 1 =>
    let res := lookupLoop t (c :: r) 0 (0, none)
    if 0 < res.1 then
      (convertLoop t ((c :: r).drop res.1) fuel).map (fun l => res.2.getD "" :: l)
    else
      (convertLoop t r fuel).map (fun l => String.singleton c :: l)

/-- `PhonemeConverter.convert`: run the loop with sufficient fuel and
join the collected parts (`''.join(result)`). -/
def convertStr (t : Trie) (cs : List Char) : String :=
  match convertLoop t cs cs.length with
  | some parts => String.join parts
  | none => ""

/-- The whitespace set `' \t\n\r'` used by `WordSegmenter.segment`. -/
def isSpaceC (c : Char) : Bool :=
  c = ' ' || c = '\t' || c = '\n' || c = '\r'

/-- Inner matching loop of `WordSegmenter.segment` (also its lookahead
loop): walk the trie along the input remembering the depth of the
deepest node whose `phoneme is not None` — presence of a value (empty
string included) marks the end of a word. -/
def wordMatchLenAux : Trie → List Char → Nat → Nat → Nat
  | _, [], _, best => best
  | t, c :: r, depth, best =>
    match childGet t c with
    | none => best
    | some child =>
      wordMatchLenAux child r (depth + 1)
        (if child.value.isSome then depth + 1 else best)

/-- Longest word match at the start of `cs` (`match_length` /
`lookahead_match` in `WordSegmenter.segment`). -/
def wordMatchLen (t : Trie) (cs : List Char) : Nat :=
  wordMatchLenAux t cs 0 0

/-- Grammar-run collector of `WordSegmenter.segment`: starting from a
position, count the consecutive code points that are neither whitespace
nor the start of a dictionary match (`while pos < len(text): if space:
break; if lookahead_match > 0: break; pos += 1`). -/
def grammarRun (t : Trie) : List Char → Nat
  | [] => 0
  | c :: r =>
    if isSpaceC c then 0
    else if 0 < wordMatchLen t (c :: r) then 0
    else 1 + grammarRun t r

/-- `WordSegmenter.segment`.  At each position: skip whitespace; emit
the longest dictionary match if there is one; otherwise emit a grammar
run.  In the grammar branch the Python loop provably consumes the
current character first (it is not whitespace and has no match) and
then continues with `grammarRun` on the rest; the definition performs
that first iteration explicitly so that the recursion is structurally
decreasing. -/
def segmentW (t : Trie) (cs : List Char) : List (List Char) :=
  match cs with
  | [] => []
  | c :: r =>
    if isSpaceC c then segmentW t r
    else
      let m := wordMatchLen t (c :: r)
      if 0 < m then (c :: r).take m :: segmentW t ((c :: r).drop m)
      else
        let g := grammarRun t r
        (c :: r.take g) :: segmentW t (r.drop g)
termination_by cs.length
decreasing_by
  all_goals simp [List.length_drop]
  all_goals omega

/-- Python `str.endswith`: `suf` is a suffix of `s` (by code points). -/
def endsWithS (s suf : String) : Bool :=
  suf.toList.isSuffixOf s.toList

/-- Python `str.startswith`. -/
def strStarts (s pre : String) : Bool :=
  pre.toList.isPrefixOf s.toList

/-- Python slicing `s[:-n]`: drop the last `n` code points. -/
def dropRightS (s : String) (n : Nat) : String :=
  ⟨s.toList.take (s.toList.length - n)⟩

/-- Python indexing from the end: `s[-(k+1)]` as a one-character string
(empty when out of range). -/
def charFromEnd (s : String) (k : Nat) : String :=
  match s.toList.reverse.drop k with
  | c :: _ => ⟨[c]⟩
  | [] => ""

/-- `GODAN_EXCEPTIONS`: verbs that look ichidan but conjugate godan. -/
def GODAN_EXCEPTIONS : List String :=
  ["帰る", "切る", "走る", "入る", "要る", "知る", "蹴る", "滑る",
   "限る", "握る", "練る", "減る", "焦る", "覆る", "遮る", "捻る"]

/-- `GODAN_TE_TA_MAP`: phoneme te/ta transformations keyed by the
stem-final consonant — `(te_modification, te_suffix, ta_suffix)`. -/
def godanTeTaMapP (e : String) : Option (String × String × String) :=
  match e with
  | "k" => some ("i", "te", "ta")
  | "g" => some ("i", "de", "da")
  | "s" => some ("ɕi", "te", "ta")
  | "t" => some ("tː", "e", "a")
  | "n" => some ("ɴ", "de", "da")
  | "b" => some ("ɴ", "de", "da")
  | "m" => some ("ɴ", "de", "da")
  | "ɾ" => some ("tː", "e", "a")
  | "ɰ" => some ("tː", "e", "a")
  | _ => none

/-- `GODAN_TE_TA_TEXT`: kana te/ta transformations keyed by the final
kana of the dictionary form. -/
def godanTeTaText (e : String) : Option (String × String × String) :=
  match e with
  | "く" => some ("い", "て", "た")
  | "ぐ" => some ("い", "で", "だ")
  | "す" => some ("し", "て", "た")
  | "つ" => some ("っ", "て", "た")
  | "ぬ" => some ("ん", "で", "だ")
  | "ぶ" => some ("ん", "で", "だ")
  | "む" => some ("ん", "で", "だ")
  | "る" => some ("っ", "て", "た")
  | "う" => some ("っ", "て", "た")
  | _ => none

/-- `a_row_map` in `generate_conjugations`. -/
def aRowMap (e : String) : Option (String × String) :=
  match e with
  | "く" => some ("か", "ka")
  | "ぐ" => some ("が", "ga")
  | "す" => some ("さ", "sa")
  | "つ" => some ("た", "ta")
  | "ぬ" => some ("な", "na")
  | "ぶ" => some ("ば", "ba")
  | "む" => some ("ま", "ma")
  | "る" => some ("ら", "ɾa")
  | "う" => some ("わ", "ɰa")
  | _ => none

/-- `i_row_map` in `generate_conjugations`. -/
def iRowMap (e : String) : Option (String × String) :=
  match e with
  | "く" => some ("き", "ki")
  | "ぐ" => some ("ぎ", "gi")
  | "す" => some ("し", "ɕi")
  | "つ" => some ("ち", "ʨi")
  | "ぬ" => some ("に", "ni")
  | "ぶ" => some ("び", "bi")
  | "む" => some ("み", "mi")
  | "る" => some ("り", "ɾi")
  | "う" => some ("い", "i")
  | _ => none

/-- `e_row_map` in `generate_conjugations`. -/
def eRowMap (e : String) : Option (String × String) :=
  match e with
  | "く" => some ("け", "ke")
  | "ぐ" => some ("げ", "ge")
  | "す" => some ("せ", "se")
  | "つ" => some ("て", "te")
  | "ぬ" => some ("ね", "ne")
  | "ぶ" => some ("べ", "be")
  | "む" => some ("め", "me")
  | "る" => some ("れ", "ɾe")
  | "う" => some ("え", "e")
  | _ => none

/-- `o_row_map` in `generate_conjugations`. -/
def oRowMap (e : String) : Option (String × String) :=
  match e with
  | "く" => some ("こ", "ko")
  | "ぐ" => some ("ご", "go")
  | "す" => some ("そ", "so")
  | "つ" => some ("と", "to")
  | "ぬ" => some ("の", "no")
  | "ぶ" => some ("ぼ", "bo")
  | "む" => some ("も", "mo")
  | "る" => some ("ろ", "ɾo")
  | "う" => some ("お", "o")
  | _ => none

/-- `detect_verb_type`: classify a dictionary entry.  `IRREGULAR_VERBS`
membership (する/来る/くる) is checked first, then ある and 行く/いく,
then する/来る/くる compounds, then the る-final requirement, the godan
exception list, and finally the phonetic ichidan test (`ɾɯ` preceded by
an `i` or `e` sound in the phoneme). -/
def detectVerbType (w p : String) : Option String :=
  if w = "する" then some "suru"
  else if w = "来る" then some "kuru"
  else if w = "くる" then some "kuru"
  else if w = "ある" then some "aru"
  else if w = "行く" || w = "いく" then some "iku"
  else if endsWithS w "する" && decide (2 < w.length) then some "suru_compound"
  else if (endsWithS w "来る" && decide (2 < w.length))
       || (endsWithS w "くる" && decide (2 < w.length)) then some "kuru_compound"
  else if !(endsWithS w "る") then none
  else if GODAN_EXCEPTIONS.contains w then some "godan_ru"
  else if endsWithS p "ɾɯ" && decide (0 < (dropRightS p 2).length)
       && (endsWithS (dropRightS p 2) "i" || endsWithS (dropRightS p 2) "e") then
    some "ichidan"
  else some "godan_ru"

/-- Flattened form of the nested stem dictionaries returned by
`get_verb_stems` (`stems['text']['stem']` becomes `stemT`, and so on;
fields not produced by a branch are `""`, mirroring keys absent from
the Python dict, which `generate_conjugations` never reads in those
branches).  Field order: stemT, endT, stemP, endP, prefT, prefP,
mizenT, renyouT, baseT, mizenP, renyouP, baseP. -/
structure VerbStems where
  stemT : String
  endT : String
  stemP : String
  endP : String
  prefT : String
  prefP : String
  mizenT : String
  renyouT : String
  baseT : String
  mizenP : String
  renyouP : String
  baseP : String

/-- `get_verb_stems`. -/
def getVerbStems (w p vt : String) : VerbStems :=
  if vt = "suru" || vt = "kuru" then
    -- IRREGULAR_VERBS[word] when present, defaulting to 来る's entry
    if w = "する" then
      ⟨"", "", "", "", "", "", "し", "し", "す", "ɕi", "ɕi", "sɯ"⟩
    else
      ⟨"", "", "", "", "", "", "こ", "き", "く", "ko", "ki", "kɯ"⟩
  else if vt = "suru_compound" then
    let tp := dropRightS w 2
    let pp := dropRightS p 3
    ⟨"", "", "", "", tp, pp, tp ++ "し", tp ++ "し", tp ++ "す",
     pp ++ "ɕi", pp ++ "ɕi", pp ++ "sɯ"⟩
  else if vt = "kuru_compound" then
    let tp := dropRightS w 2
    let pp := dropRightS p 3
    ⟨"", "", "", "", tp, pp, tp ++ "こ", tp ++ "き", tp ++ "く",
     pp ++ "ko", pp ++ "ki", pp ++ "kɯ"⟩
  else if vt = "ichidan" then
    ⟨dropRightS w 1, "", dropRightS p 2, "", "", "", "", "", "", "", "", ""⟩
  else if strStarts vt "godan" || vt = "iku" || vt = "aru" then
    let endT := charFromEnd w 0
    let pe :=
      if endsWithS p "ɯ" then
        if 2 ≤ p.length then (charFromEnd p 1, dropRightS p 2)
        else ("ɯ", "")
      else
        (if p = "" then "" else charFromEnd p 0,
         if 1 < p.length then dropRightS p 1 else "")
    ⟨dropRightS w 1, endT, pe.2, pe.1, "", "", "", "", "", "", "", ""⟩
  else
    ⟨dropRightS w 1, "",
     if endsWithS p "ɾɯ" then dropRightS p 2 else dropRightS p 1,
     "", "", "", "", "", "", "", "", ""⟩

/-- Python `dict` assignment `d[k] = v` on an association list: replace
the value in place if the key exists, otherwise append. -/
def insKV (d : List (String × String)) (k v : String) : List (String × String) :=
  if (d.lookup k).isSome then
    d.map (fun q => if q.1 = k then (k, v) else q)
  else d ++ [(k, v)]

/-- Sequence of `conjugations[...] = ...` assignments. -/
def insAll (d : List (String × String)) (l : List (String × String)) :
    List (String × String) :=
  l.foldl (fun acc q => insKV acc q.1 q.2) d

/-- `generate_conjugations`: the full paradigm emitted for one verb, as
the insertion sequence of `{conjugated_text: conjugated_phoneme}`
assignments performed by the Python function, branch for branch. -/
def generateConjugations (w p vt : String) : List (String × String) :=
  let stems := getVerbStems w p vt
  if vt = "ichidan" then
    let sT := stems.stemT
    let sP := stems.stemP
    insAll []
      [(sT ++ "た", sP ++ "ta"),
       (sT ++ "て", sP ++ "te"),
       (sT ++ "ない", sP ++ "nai"),
       (sT ++ "なかった", sP ++ "nakatta"),
       (sT ++ "ます", sP ++ "masɯ"),
       (sT ++ "ました", sP ++ "maɕita"),
       (sT ++ "ません", sP ++ "maseɴ"),
       (sT ++ "ませんでした", sP ++ "maseɴdeɕita"),
       (sT ++ "れば", sP ++ "ɾeba"),
       (sT ++ "よう", sP ++ "joɯ"),
       (sT ++ "ろ", sP ++ "ɾo"),
       (sT ++ "よ", sP ++ "jo"),
       (sT ++ "られる", sP ++ "ɾaɾeɾɯ"),
       (sT ++ "させる", sP ++ "saseɾɯ"),
       (sT ++ "たら", sP ++ "taɾa")]
  else if strStarts vt "godan" || vt = "iku" || vt = "aru" then
    let sT := stems.stemT
    let eT := stems.endT
    let sP := stems.stemP
    let eP := stems.endP
    let teTa :=
      if vt = "iku" then
        [(sT ++ "った", sP ++ "itːa"),
         (sT ++ "って", sP ++ "itːe"),
         (sT ++ "ったら", sP ++ "itːaɾa")]
      else
        match godanTeTaText eT, godanTeTaMapP eP with
        | some (tm, ts, ta), some (pm, ps, pa) =>
          [(sT ++ tm ++ ta, sP ++ pm ++ pa),
           (sT ++ tm ++ ts, sP ++ pm ++ ps),
           (sT ++ tm ++ ta ++ "ら", sP ++ pm ++ pa ++ "ɾa")]
        | _, _ => []
    let neg :=
      if vt = "aru" then [("ない", "nai"), ("なかった", "nakatta")]
      else
        match aRowMap eT with
        | some (aT, aP) =>
          [(sT ++ aT ++ "ない", sP ++ aP ++ "nai"),
           (sT ++ aT ++ "なかった", sP ++ aP ++ "nakatta"),
           (sT ++ aT ++ "せる", sP ++ aP ++ "seɾɯ")]
        | none => []
    let polite :=
      match iRowMap eT with
      | some (iT, iP) =>
        [(sT ++ iT ++ "ます", sP ++ iP ++ "masɯ"),
         (sT ++ iT ++ "ました", sP ++ iP ++ "maɕita"),
         (sT ++ iT ++ "ません", sP ++ iP ++ "maseɴ"),
         (sT ++ iT ++ "ませんでした", sP ++ iP ++ "maseɴdeɕita")]
      | none => []
    let erow :=
      match eRowMap eT with
      | some (eT2, eP2) =>
        [(sT ++ eT2 ++ "ば", sP ++ eP2 ++ "ba"),
         (sT ++ eT2, sP ++ eP2),
         (sT ++ eT2 ++ "る", sP ++ eP2 ++ "ɾɯ")]
      | none => []
    let passive :=
      match aRowMap eT with
      | some (aT, aP) => [(sT ++ aT ++ "れる", sP ++ aP ++ "ɾeɾɯ")]
      | none => []
    let volitional :=
      match oRowMap eT with
      | some (oT, oP) => [(sT ++ oT ++ "う", sP ++ oP ++ "ɯ")]
      | none => []
    insAll [] (teTa ++ neg ++ polite ++ erow ++ passive ++ volitional)
  else if vt = "suru" then
    insAll []
      [("した", "ɕita"), ("して", "ɕite"), ("しない", "ɕinai"),
       ("しなかった", "ɕinakatta"), ("します", "ɕimasɯ"),
       ("しました", "ɕimaɕita"), ("しません", "ɕimaseɴ"),
       ("しませんでした", "ɕimaseɴdeɕita"), ("すれば", "sɯɾeba"),
       ("しよう", "ɕijoɯ"), ("しろ", "ɕiɾo"), ("せよ", "sejo"),
       ("できる", "dekiɾɯ"), ("される", "saɾeɾɯ"), ("させる", "saseɾɯ"),
       ("したら", "ɕitaɾa")]
  else if vt = "kuru" then
    insAll []
      [("来た", "kita"), ("きた", "kita"), ("来て", "kite"), ("きて", "kite"),
       ("来ない", "konai"), ("こない", "konai"),
       ("来なかった", "konakatta"), ("こなかった", "konakatta"),
       ("来ます", "kimasɯ"), ("きます", "kimasɯ"),
       ("来ました", "kimaɕita"), ("きました", "kimaɕita"),
       ("来ません", "kimaseɴ"), ("きません", "kimaseɴ"),
       ("来ませんでした", "kimaseɴdeɕita"), ("きませんでした", "kimaseɴdeɕita"),
       ("来れば", "kɯɾeba"), ("くれば", "kɯɾeba"),
       ("来よう", "kojoɯ"), ("こよう", "kojoɯ"),
       ("来い", "koi"), ("こい", "koi"),
       ("来られる", "koɾaɾeɾɯ"), ("こられる", "koɾaɾeɾɯ"),
       ("来させる", "kisaseɾɯ"), ("こさせる", "kosaseɾɯ"),
       ("来たら", "kitaɾa"), ("きたら", "kitaɾa")]
  else if vt = "suru_compound" then
    let tp := stems.prefT
    let pp := stems.prefP
    insAll []
      [(tp ++ "した", pp ++ "ɕita"), (tp ++ "して", pp ++ "ɕite"),
       (tp ++ "しない", pp ++ "ɕinai"), (tp ++ "しなかった", pp ++ "ɕinakatta"),
       (tp ++ "します", pp ++ "ɕimasɯ"), (tp ++ "しました", pp ++ "ɕimaɕita"),
       (tp ++ "しません", pp ++ "ɕimaseɴ"),
       (tp ++ "しませんでした", pp ++ "ɕimaseɴdeɕita"),
       (tp ++ "すれば", pp ++ "sɯɾeba"), (tp ++ "しよう", pp ++ "ɕijoɯ"),
       (tp ++ "しろ", pp ++ "ɕiɾo"), (tp ++ "せよ", pp ++ "sejo"),
       (tp ++ "できる", pp ++ "dekiɾɯ"), (tp ++ "される", pp ++ "saɾeɾɯ"),
       (tp ++ "させる", pp ++ "saseɾɯ"), (tp ++ "したら", pp ++ "ɕitaɾa")]
  else if vt = "kuru_compound" then
    let tp := stems.prefT
    let pp := stems.prefP
    insAll []
      [(tp ++ "来た", pp ++ "kita"), (tp ++ "きた", pp ++ "kita"),
       (tp ++ "来て", pp ++ "kite"), (tp ++ "きて", pp ++ "kite"),
       (tp ++ "来ない", pp ++ "konai"), (tp ++ "こない", pp ++ "konai"),
       (tp ++ "来なかった", pp ++ "konakatta"), (tp ++ "こなかった", pp ++ "konakatta"),
       (tp ++ "来ます", pp ++ "kimasɯ"), (tp ++ "きます", pp ++ "kimasɯ"),
       (tp ++ "来ました", pp ++ "kimaɕita"), (tp ++ "きました", pp ++ "kimaɕita"),
       (tp ++ "来ません", pp ++ "kimaseɴ"), (tp ++ "きません", pp ++ "kimaseɴ"),
       (tp ++ "来ませんでした", pp ++ "kimaseɴdeɕita"),
       (tp ++ "きませんでした", pp ++ "kimaseɴdeɕita"),
       (tp ++ "来れば", pp ++ "kɯɾeba"), (tp ++ "くれば", pp ++ "kɯɾeba"),
       (tp ++ "来よう", pp ++ "kojoɯ"), (tp ++ "こよう", pp ++ "kojoɯ"),
       (tp ++ "来い", pp ++ "koi"), (tp ++ "こい", pp ++ "koi"),
       (tp ++ "来られる", pp ++ "koɾaɾeɾɯ"), (tp ++ "こられる", pp ++ "koɾaɾeɾɯ"),
       (tp ++ "来させる", pp ++ "kisaseɾɯ"), (tp ++ "こさせる", pp ++ "kosaseɾɯ"),
       (tp ++ "来たら", pp ++ "kitaɾa"), (tp ++ "きたら", pp ++ "kitaɾa")]
  else []

/-- The conjugation engine on one entry, as `process_verb_batch` uses
it: classify, and generate the paradigm only when classification
succeeds. -/
def conjugationsFor (w p : String) : List (String × String) :=
  match detectVerbType w p with
  | some vt => generateConjugations w p vt
  | none => []

/-- Little-endian bytes of `struct.pack('<H', v)`. -/
def u16le (v : Nat) : List Nat :=
  [v % 256, v / 256 % 256]

/-- Little-endian bytes of `struct.pack('<I', v)`. -/
def u32le (v : Nat) : List Nat :=
  [v % 256, v / 256 % 256, v / 65536 % 256, v / 16777216 % 256]

/-- Little-endian bytes of `struct.pack('<Q', v)`. -/
def u64le (v : Nat) : List Nat :=
  u32le (v % 4294967296) ++ u32le (v / 4294967296)

/-- `write_varint`: base-128 little-endian with continuation bit. -/
def writeVarint (v : Nat) : List Nat :=
  if 128 ≤ v then (v % 128 + 128) :: writeVarint (v / 128)
  else [v % 128]
decreasing_by exact Nat.div_lt_self (by omega) (by omega)

/-- UTF-8 bytes of one scalar value (RFC 3629). -/
def utf8EncodeChar (c : Char) : List Nat :=
  let n := c.toNat
  if n < 128 then [n]
  else if n < 2048 then [192 + n / 64, 128 + n % 64]
  else if n < 65536 then [224 + n / 4096, 128 + n / 64 % 64, 128 + n % 64]
  else [240 + n / 262144, 128 + n / 4096 % 64, 128 + n / 64 % 64, 128 + n % 64]

/-- Python `s.encode('utf-8')`. -/
def utf8Encode (s : String) : List Nat :=
  s.toList.foldl (fun acc c => acc ++ utf8EncodeChar c) []

/-- `struct.pack_into('<i', ...)`: two's-complement little-endian bytes
of a signed 32-bit value. -/
def encInt32le (i : Int) : List Nat :=
  u32le (i % 4294967296).toNat

/-- Overwrite bytes of `out` starting at position `p` (as
`struct.pack_into` and direct element assignment do on the Python
`bytearray`; positions are in range in every reachable call, and
`List.set` leaves the length unchanged like the Python assignment). -/
def writeAt (out : List Nat) (p : Nat) : List Nat → List Nat
  | [] => out
  | b :: r => writeAt (out.set p b) (p + 1) r

/-- Back-patching loop at the end of `serialize_trie_node`: write each
seven-byte child entry (three bytes code point little-endian, four
bytes signed relative offset measured from the end of the entry) into
the reserved table.  Besides the patched buffer it returns the list of
`relative_offset` values written, as a specification-level trace. -/
def patchTable (out : List Nat) (tp : Nat) :
    List (Char × Nat) → List Nat × List Int
  | [] => (out, [])
  | (cp, coff) :: rest =>
    let entryEnd := tp + 7
    let rel : Int := (coff : Int) - (entryEnd : Int)
    let n := cp.toNat
    let out1 := writeAt out tp [n % 256, n / 256 % 256, n / 65536 % 256]
    let out2 := writeAt out1 (tp + 3) (encInt32le rel)
    let (out3, rels) := patchTable out2 (tp + 7) rest
    (out3, rel :: rels)

/-- Insertion sort of a children list by code point: Python's
`sorted(node.children.items())` (`sorted(child_offsets.items())` visits
the same code points in the same order, so it is not repeated). -/
def insSorted (a : Char × Trie) : List (Char × Trie) → List (Char × Trie)
  | [] => [a]
  | b :: r =>
    if a.1.toNat ≤ b.1.toNat then a :: b :: r else b :: insSorted a r

def sortPairs : List (Char × Trie) → List (Char × Trie)
  | [] => []
  | a :: r => insSorted a (sortPairs r)

mutual
/-- `serialize_trie_node`, appending to `out` (the Python function
mutates a shared `bytearray`; the unused `offset_tracker` argument is
dropped).  Writes the flags byte (bit 0 `has_value`, bits 1..6 child
count, bit 7 varint-count escape), the value (varint length plus UTF-8
bytes) when present, reserves `7 × child_count` zero bytes, serializes
the children in ascending code-point order, and back-patches the
table.  Returns the extended buffer, the node's offset (`len(output)`
on entry) and the trace of all relative offsets written in the subtree.
`fuel` bounds the recursion depth (Python relies on the call stack);
`buildBinaryTrie` supplies a sufficient amount. -/
def serializeTrieNode : Nat → Trie → List Nat → Option (List Nat × Nat × List Int)
  | 0, _, _ => none
  | fuel + 1, node, out =>
    let nodeOffset := out.length
    let num := node.children.length
    let hv : Nat := if node.value.isSome then 1 else 0
    let out1 :=
      if num < 127 then out ++ [hv + num * 2]
      else out ++ [hv + 128] ++ writeVarint num
    let out2 :=
      match node.value with
      | some v =>
        let vb := utf8Encode v
        out1 ++ writeVarint vb.length ++ vb
      | none => out1
    let tableOff := out2.length
    let out3 := out2 ++ List.replicate (num * 7) 0
    match serializeChildren fuel (sortPairs node.children) out3 with
    | none => none
    | some (out4, offs, kidRels) =>
      let (out5, myRels) := patchTable out4 tableOff offs
      some (out5, nodeOffset, myRels ++ kidRels)
termination_by fuel _ _ => (fuel, 0)

/-- The `for code_point, child_node in sorted(...)` loop: serialize
each child, collecting `child_offsets` and the children's traces. -/
def serializeChildren : Nat → List (Char × Trie) → List Nat →
    Option (List Nat × List (Char × Nat) × List Int)
  | _, [], out => some (out, [], [])
  | fuel, (cp, child) :: rest, out =>
    match serializeTrieNode fuel child out with
    | none => none
    | some (out', coff, crels) =>
      match serializeChildren fuel rest out' with
      | none => none
      | some (out'', offs, rels) =>
        some (out'', (cp, coff) :: offs, crels ++ rels)
termination_by fuel kids _ => (fuel, kids.length + 1)
end

mutual
/-- Height of a trie, an upper bound for the serializer's recursion. -/
def depthT : Trie → Nat
  | .node _ ch => 1 + depthKids ch

def depthKids : List (Char × Trie) → Nat
  | [] => 0
  | (_, c) :: r => max (depthT c) (depthKids r)
end

/-- `build_binary_trie`: insert the phoneme entries, then the words not
already present as phoneme keys (with value `""`), write the 16-byte
header (magic `b'JPNT'`, version 2.0, the two entry counts) and the
8-byte root offset, then serialize the root.  The phoneme dictionary is
a key/value list, the word set a list of words. -/
def buildBinaryTrie (pd : List (List Char × String)) (ws : List (List Char)) :
    List Nat :=
  let root := pd.foldl (fun t kv => t.insert kv.1 kv.2) emptyTrie
  let root := ws.foldl
    (fun t w => if (pd.map Prod.fst).contains w then t else t.insert w "") root
  let header :=
    [74, 80, 78, 84] ++ u16le 2 ++ u16le 0 ++
    u32le pd.length ++ u32le ws.length ++ u64le 16
  match serializeTrieNode (depthT root) root header with
  | some (bytes, _, _) => bytes
  | none => header

/-- `read_varint` inside `try_load_binary_format`: accumulate 7-bit
groups little-endian until a byte with the high bit clear; reading past
the end of the stream raises (`f.read(1)[0]` on empty), which the
surrounding `except` turns into failure, hence `none`. -/
def readVarintAux : List Nat → Nat → Nat → Option (Nat × List Nat)
  | [], _, _ => none
  | b :: r, shift, acc =>
    let acc' := acc ||| ((b % 128) <<< shift)
    if b / 128 % 2 = 0 then some (acc', r)
    else readVarintAux r (shift + 7) acc'

def readVarint (bs : List Nat) : Option (Nat × List Nat) :=
  readVarintAux bs 0 0

/-- Strict UTF-8 decoding of a byte list (Python `bytes.decode('utf-8')`;
`none` models the `UnicodeDecodeError` caught by the loader).  Rejects
continuation-byte errors, overlong forms, surrogates and values above
U+10FFFF, as CPython's strict decoder does. -/
def utf8Decode : List Nat → Option (List Char)
  | [] => some []
  | b :: r =>
    if b < 128 then
      (utf8Decode r).map (fun l => Char.ofNat b :: l)
    else if 194 ≤ b && b ≤ 223 then
      match r with
      | b2 :: r2 =>
        if 128 ≤ b2 && b2 ≤ 191 then
          (utf8Decode r2).map (fun l => Char.ofNat ((b - 192) * 64 + (b2 - 128)) :: l)
        else none
      | _ => none
    else if 224 ≤ b && b ≤ 239 then
      match r with
      | b2 :: b3 :: r3 =>
        let lo2 : Nat := if b = 224 then 160 else 128
        let hi2 : Nat := if b = 237 then 159 else 191
        if lo2 ≤ b2 && b2 ≤ hi2 && 128 ≤ b3 && b3 ≤ 191 then
          (utf8Decode r3).map
            (fun l => Char.ofNat ((b - 224) * 4096 + (b2 - 128) * 64 + (b3 - 128)) :: l)
        else none
      | _ => none
    else if 240 ≤ b && b ≤ 244 then
      match r with
      | b2 :: b3 :: b4 :: r4 =>
        let lo2 : Nat := if b = 240 then 144 else 128
        let hi2 : Nat := if b = 244 then 143 else 191
        if lo2 ≤ b2 && b2 ≤ hi2 && 128 ≤ b3 && b3 ≤ 191 && 128 ≤ b4 && b4 ≤ 191 then
          (utf8Decode r4).map
            (fun l => Char.ofNat ((b - 240) * 262144 + (b2 - 128) * 4096 +
              (b3 - 128) * 64 + (b4 - 128)) :: l)
        else none
      | _ => none
    else none
termination_by bs => bs.length
decreasing_by all_goals simp_arith

/-- Entry-reading loop of `try_load_binary_format`: for each of the
`entry_count` entries read a varint key length, the key bytes (UTF-8),
a varint value length and the value bytes (`""` when the length is 0),
and `_insert` the pair into the trie, counting entries.  Any read past
end-of-stream or decode error aborts the whole load (`except` clause). -/
def loadEntries : Nat → List Nat → Trie → Nat → Option (Trie × Nat)
  | 0, _, t, cnt => some (t, cnt)
  | n + 1, bs, t, cnt =>
    match readVarint bs with
    | none => none
    | some (klen, bs1) =>
      match utf8Decode (bs1.take klen) with
      | none => none
      | some key =>
        let bs2 := bs1.drop klen
        match readVarint bs2 with
        | none => none
        | some (vlen, bs3) =>
          if 0 < vlen then
            match utf8Decode (bs3.take vlen) with
            | none => none
            | some vchars =>
              loadEntries n (bs3.drop vlen) (t.insert key (String.mk vchars)) (cnt + 1)
          else loadEntries n bs3 (t.insert key "") (cnt + 1)

/-- `PhonemeConverter.try_load_binary_format` on the byte stream of the
file (run on a fresh converter, whose trie is `emptyTrie`): require the
four-byte magic `b'JPHO'`, read and discard the two version fields
(`struct.unpack('<HH', ...)` merely raises on a short read), read the
little-endian 32-bit entry count, then load that many entries.
`none` models a `False` return, `some (trie, n)` a successful load of
`n` entries into `trie`. -/
def tryLoadBinaryFormat (bs : List Nat) : Option (Trie × Nat) :=
  if bs.take 4 = [74, 80, 72, 79] then
    let r1 := bs.drop 4
    if r1.length < 4 then none
    else
      let r2 := r1.drop 4
      if r2.length < 4 then none
      else
        let cnt := r2[0]! + r2[1]! * 256 + r2[2]! * 65536 + r2[3]! * 16777216
        loadEntries cnt (r2.drop 4) emptyTrie 0
  else none


mutual
/-- Does any node of this subtree carry a value?  (Specification-side
predicate: a key ending inside this subtree exists.) -/
def hasValB : Trie → Bool
  | .node v ch => v.isSome || hasValKids ch

def hasValKids : List (Char × Trie) → Bool
  | [] => false
  | (_, c) :: r => hasValB c || hasValKids r
end

mutual
/-- Specification-side predicate: no key stored in the trie contains a
whitespace code point — equivalently, no valued node lies at or below a
whitespace edge. -/
def spaceFreeB : Trie → Bool
  | .node _ ch => spaceFreeKids ch

def spaceFreeKids : List (Char × Trie) → Bool
  | [] => true
  | (k, c) :: r =>
    (!(isSpaceC k) || !(hasValB c)) && spaceFreeB c && spaceFreeKids r
end

/-! Helper lemmas. -/

theorem take_chain {α : Type} {a b : List α} {n : Nat} (h1 : n ≤ a.length)
    (h2 : b.take a.length = a) : b.take n = a.take n := by
  have h3 : b.take n = (b.take a.length).take n := by
    rw [List.take_take, Nat.min_eq_left h1]
  rw [h3, h2]

theorem writeAt_length : ∀ (bs out : List Nat) (p : Nat),
    (writeAt out p bs).length = out.length := by
  intro bs
  induction bs with
  | nil => intro out p; rfl
  | cons b r ih =>
    intro out p
    rw [writeAt, ih, List.length_set]

theorem writeAt_take : ∀ (bs out : List Nat) (p n : Nat), n ≤ p →
    (writeAt out p bs).take n = out.take n := by
  intro bs
  induction bs with
  | nil => intro out p n _; rfl
  | cons b r ih =>
    intro out p n hnp
    rw [writeAt, ih _ _ _ (by omega), List.set_take,
      List.set_eq_of_length_le (by simpa using Nat.le_trans (List.length_take_le n out) hnp)]

theorem patchTable_length : ∀ (offs : List (Char × Nat)) (out : List Nat) (tp : Nat),
    (patchTable out tp offs).1.length = out.length := by
  intro offs
  induction offs with
  | nil => intro out tp; rfl
  | cons q rest ih =>
    intro out tp
    simp only [patchTable]
    rw [ih, writeAt_length, writeAt_length]

theorem patchTable_take : ∀ (offs : List (Char × Nat)) (out : List Nat) (tp n : Nat),
    n ≤ tp → (patchTable out tp offs).1.take n = out.take n := by
  intro offs
  induction offs with
  | nil => intro out tp n _; rfl
  | cons q rest ih =>
    intro out tp n hn
    simp only [patchTable]
    rw [ih _ _ _ (by omega), writeAt_take _ _ _ _ (by omega),
      writeAt_take _ _ _ _ hn]

theorem patchTable_rels : ∀ (offs : List (Char × Nat)) (out : List Nat) (tp : Nat),
    (∀ q ∈ offs, tp + 7 * offs.length ≤ q.2) →
    ∀ r ∈ (patchTable out tp offs).2, 0 ≤ r := by
  intro offs
  induction offs with
  | nil => intro out tp _ r hr; simp [patchTable] at hr
  | cons q rest ih =>
    intro out tp hb r hr
    simp only [patchTable, List.mem_cons] at hr
    rcases hr with hr | hr
    · have hq : tp + 7 * (rest.length + 1) ≤ q.2 := by
        simpa using hb q (by simp)
      subst hr
      have : (tp : Int) + 7 ≤ (q.2 : Int) := by
        have : tp + 7 ≤ q.2 := by omega
        exact_mod_cast this
      omega
    · refine ih _ (tp + 7) ?_ r hr
      intro q' hq'
      have := hb q' (by simp [hq'])
      simp at this
      omega

theorem insSorted_length : ∀ (a : Char × Trie) (l : List (Char × Trie)),
    (insSorted a l).length = l.length + 1 := by
  intro a l
  induction l with
  | nil => rfl
  | cons b r ih =>
    rw [insSorted]
    split
    · simp
    · simp [ih]

theorem sortPairs_length : ∀ (l : List (Char × Trie)),
    (sortPairs l).length = l.length := by
  intro l
  induction l with
  | nil => rfl
  | cons a r ih => rw [sortPairs, insSorted_length, ih, List.length_cons]

/-- Joint invariant of the serializer, proved by induction on the fuel:
a node's recorded offset is the length of the buffer on entry (so a
parent's record starts before anything its call appends, children
included), the buffer strictly grows and is only ever extended (its
previous content is a prefix of the result), every recorded child
offset is at least the buffer length at the start of the children loop,
and every relative offset ever written is non-negative. -/
theorem serialize_inv : ∀ fuel : Nat,
    (∀ (node : Trie) (out : List Nat) (res : List Nat × Nat × List Int),
      serializeTrieNode fuel node out = some res →
      res.2.1 = out.length ∧ out.length + 1 ≤ res.1.length ∧
      res.1.take out.length = out ∧ ∀ r ∈ res.2.2, 0 ≤ r) ∧
    (∀ (kids : List (Char × Trie)) (out : List Nat)
      (res : List Nat × List (Char × Nat) × List Int),
      serializeChildren fuel kids out = some res →
      out.length ≤ res.1.length ∧ res.1.take out.length = out ∧
      res.2.1.length = kids.length ∧ (∀ q ∈ res.2.1, out.length ≤ q.2) ∧
      ∀ r ∈ res.2.2, 0 ≤ r) := by
  intro fuel
  induction fuel with
  | zero =>
    constructor
    · intro node out res h
      simp [serializeTrieNode] at h
    · intro kids out res h
      cases kids with
      | nil =>
        rw [serializeChildren.eq_1] at h
        cases h
        exact ⟨Nat.le_refl _, by simp, rfl, by simp, by simp⟩
      | cons k rest =>
        obtain ⟨cp, child⟩ := k
        simp [serializeChildren, serializeTrieNode] at h
  | succ f ih =>
    have hnode : ∀ (node : Trie) (out : List Nat) (res : List Nat × Nat × List Int),
        serializeTrieNode (f + 1) node out = some res →
        res.2.1 = out.length ∧ out.length + 1 ≤ res.1.length ∧
        res.1.take out.length = out ∧ ∀ r ∈ res.2.2, 0 ≤ r := by
      intro node out res h
      rw [serializeTrieNode] at h
      set num := node.children.length with hnum
      set hv : Nat := if node.value.isSome then 1 else 0 with hhv
      set out1 := if num < 127 then out ++ [hv + num * 2]
        else out ++ [hv + 128] ++ writeVarint num with hout1
      set out2 := match node.value with
        | some v => out1 ++ writeVarint (utf8Encode v).length ++ utf8Encode v
        | none => out1 with hout2
      set tableOff := out2.length with htoff
      set out3 := out2 ++ List.replicate (num * 7) 0 with hout3
      have h1len : out.length + 1 ≤ out1.length := by
        rw [hout1]; split <;> simp
      have h1take : out1.take out.length = out := by
        rw [hout1]; split
        · exact List.take_left out _
        · rw [List.append_assoc]; exact List.take_left out _
      have h2len : out1.length ≤ out2.length := by
        rw [hout2]; cases node.value <;> simp
      have h2take : out2.take out1.length = out1 := by
        rw [hout2]
        cases node.value with
        | none => simp
        | some v =>
          show ((out1 ++ writeVarint (utf8Encode v).length ++ utf8Encode v).take
            out1.length) = out1
          rw [List.append_assoc]
          exact List.take_left out1 _
      have h3len : out3.length = out2.length + num * 7 := by
        rw [hout3]; simp
      have h3take : out3.take out2.length = out2 := List.take_left out2 _
      cases hsc : serializeChildren f (sortPairs node.children) out3 with
      | none => rw [hsc] at h; simp at h
      | some resk =>
        rw [hsc] at h
        obtain ⟨out4, offs, kidRels⟩ := resk
        obtain ⟨h4len, h4take, hofflen, hoffbd, hkrels⟩ := ih.2 _ _ _ hsc
        simp only at h4len h4take hofflen hoffbd hkrels
        simp only at h
        cases h
        have hofflen' : offs.length = num := by
          rw [hofflen, sortPairs_length]
        have hplen := patchTable_length offs out4 tableOff
        refine ⟨rfl, ?_, ?_, ?_⟩
        · dsimp only
          omega
        · dsimp only
          have p1 : (patchTable out4 tableOff offs).1.take out.length
              = out4.take out.length :=
            patchTable_take offs out4 tableOff out.length (by omega)
          have t2 : out2.take out.length = out := by
            rw [take_chain (show out.length ≤ out1.length by omega) h2take, h1take]
          have t3 : out3.take out.length = out := by
            rw [take_chain (show out.length ≤ out2.length by omega) h3take, t2]
          have t4 : out4.take out.length = out := by
            rw [take_chain (show out.length ≤ out3.length by omega) h4take, t3]
          rw [p1, t4]
        · dsimp only
          intro r hr
          rw [List.mem_append] at hr
          rcases hr with hr | hr
          · refine patchTable_rels offs out4 tableOff ?_ r hr
            intro q hq
            have := hoffbd q hq
            omega
          · exact hkrels r hr
    refine ⟨hnode, ?_⟩
    intro kids
    induction kids with
    | nil =>
      intro out res h
      rw [serializeChildren.eq_1] at h
      cases h
      exact ⟨Nat.le_refl _, by simp, rfl, by simp, by simp⟩
    | cons k rest ihk =>
      intro out res h
      obtain ⟨cp, child⟩ := k
      rw [serializeChildren] at h
      cases hsn : serializeTrieNode (f + 1) child out with
      | none => rw [hsn] at h; simp at h
      | some resn =>
        rw [hsn] at h
        obtain ⟨out', coff, crels⟩ := resn
        obtain ⟨hcoff, hlen', htake', hcrels⟩ := hnode _ _ _ hsn
        simp only at hcoff hlen' htake' hcrels
        dsimp only at h
        cases hsk : serializeChildren (f + 1) rest out' with
        | none => rw [hsk] at h; simp at h
        | some resr =>
          rw [hsk] at h
          obtain ⟨out'', offs, rels⟩ := resr
          obtain ⟨hlen'', htake'', hofflen, hoffbd, hrels⟩ := ihk _ _ hsk
          simp only at hlen'' htake'' hofflen hoffbd hrels
          dsimp only at h
          cases h
          refine ⟨by dsimp only; omega, ?_, by simp [hofflen], ?_, ?_⟩
          · dsimp only
            rw [take_chain (show out.length ≤ out'.length by omega) htake'', htake']
          · dsimp only
            intro q hq
            rw [List.mem_cons] at hq
            rcases hq with hq | hq
            · subst hq; simp [hcoff]
            · have := hoffbd q hq
              omega
          · dsimp only
            intro r hr
            rw [List.mem_append] at hr
            rcases hr with hr | hr
            · exact hcrels r hr
            · exact hrels r hr

/-! Claim theorems. -/

/-- C1: the round trip fails at the load step — for every phoneme
dictionary and word set, `build_binary_trie` writes the magic
`b'JPNT'` (a node-record trie format), while `try_load_binary_format`
accepts only the magic `b'JPHO'` (a flat entry-list format), so loading
the serialized artifact always returns unsuccessfully (`False`,
modelled `none`) instead of reproducing the in-memory trie. -/
theorem build_load_roundtrip_fails :
    ∀ (pd : List (List Char × String)) (ws : List (List Char)),
    tryLoadBinaryFormat (buildBinaryTrie pd ws) = none := by
  intro pd ws
  have h4 : (buildBinaryTrie pd ws).take 4 = [74, 80, 78, 84] := by
    rw [buildBinaryTrie]
    split
    · next bytes _ _ hs =>
      obtain ⟨hoff, hlen, htake, hrels⟩ := (serialize_inv _).1 _ _ _ hs
      simp only at htake hlen
      have hhl : ([74, 80, 78, 84] ++ u16le 2 ++ u16le 0 ++
          u32le pd.length ++ u32le ws.length ++ u64le 16).length = 24 := by
        simp [u16le, u32le, u64le]
      have : bytes.take 4 = (bytes.take 24).take 4 := by
        rw [List.take_take]
        norm_num
      rw [this, ← hhl, htake]
      rfl
    · rfl
  rw [tryLoadBinaryFormat, h4]
  simp

/-- C4 counterexample: serialization is not post-order and its relative
offsets are not negative.  For the one-entry trie あ → a the parent
(root) record is written first, at offset 0 (its flags byte `2` is byte
0 of the stream), the child record `[1, 1, 97]` follows at offset 8,
and the single stored relative offset is `0` — not negative — measured
from the end of the seven-byte child entry at bytes 1..7. -/
theorem serialize_order_counterexample :
    serializeTrieNode 2 (Trie.insert emptyTrie ['あ'] "a") []
      = some ([2, 66, 48, 0, 0, 0, 0, 0, 1, 1, 97], 0, [0]) ∧
    ¬ ((0 : Int) < 0) :=
  ⟨by simp [serializeTrieNode, serializeChildren, Trie.insert, insertChild,
      childGet, emptyTrie, sortPairs, insSorted, patchTable, writeAt, encInt32le,
      u32le, utf8Encode, utf8EncodeChar, writeVarint, Trie.children, Trie.value],
    by decide⟩

/-- C4 (amended): serialization writes nodes in pre-order — a node's
record begins at the buffer length on entry and everything else
produced by its call (children included) is appended after it, every
recorded child offset lies at or beyond the end of the parent's
reserved children table, and all signed 32-bit relative offsets written
(measured from the end of each seven-byte child entry) are
non-negative. -/
theorem serialize_preorder_nonneg : ∀ fuel : Nat,
    (∀ (node : Trie) (out : List Nat) (res : List Nat × Nat × List Int),
      serializeTrieNode fuel node out = some res →
      res.2.1 = out.length ∧ out.length + 1 ≤ res.1.length ∧
      res.1.take out.length = out ∧ ∀ r ∈ res.2.2, 0 ≤ r) ∧
    (∀ (kids : List (Char × Trie)) (out : List Nat)
      (res : List Nat × List (Char × Nat) × List Int),
      serializeChildren fuel kids out = some res →
      out.length ≤ res.1.length ∧ res.1.take out.length = out ∧
      res.2.1.length = kids.length ∧ (∀ q ∈ res.2.1, out.length ≤ q.2) ∧
      ∀ r ∈ res.2.2, 0 ≤ r) :=
  serialize_inv

/-- C4 witness: the amended theorem applied to the concrete trie あ → a
serialized into an empty buffer. -/
theorem serialize_preorder_nonneg_witness :
    (([2, 66, 48, 0, 0, 0, 0, 0, 1, 1, 97], 0, ([0] : List Int)) :
        List Nat × Nat × List Int).2.1 = ([] : List Nat).length ∧
    ([] : List Nat).length + 1 ≤
      (([2, 66, 48, 0, 0, 0, 0, 0, 1, 1, 97], 0, ([0] : List Int)) :
        List Nat × Nat × List Int).1.length ∧
    (([2, 66, 48, 0, 0, 0, 0, 0, 1, 1, 97], 0, ([0] : List Int)) :
        List Nat × Nat × List Int).1.take ([] : List Nat).length = [] ∧
    ∀ r ∈ (([2, 66, 48, 0, 0, 0, 0, 0, 1, 1, 97], 0, ([0] : List Int)) :
        List Nat × Nat × List Int).2.2, 0 ≤ r :=
  (serialize_preorder_nonneg 2).1 (Trie.insert emptyTrie ['あ'] "a") [] _
    (by simp [serializeTrieNode, serializeChildren, Trie.insert, insertChild,
      childGet, emptyTrie, sortPairs, insSorted, patchTable, writeAt, encInt32le,
      u32le, utf8Encode, utf8EncodeChar, writeVarint, Trie.children, Trie.value])

/-- C2: `convert` does emit an empty-string value as a replacement.
With the word-marker entry あ → "" in the trie (as the unified binary
format stores word entries), converting the input あ returns the empty
string — the matched span is silently deleted — rather than falling
back to copying the code point through (which would give "あ"). -/
theorem convert_emits_empty_value :
    convertStr (Trie.insert emptyTrie ['あ'] "") ['あ'] = "" ∧
    ("" : String) ≠ "あ" :=
  ⟨rfl, by decide⟩

/-- C3: the conjugation engine never classifies 書く → kakɯ as a verb:
`detect_verb_type` requires the word to end in る (after the irregular
checks), so it returns `None` on 書く and the engine generates nothing —
in particular no 書いた → kaita entry.  The paradigm tables themselves
would produce exactly 書いた → kaita if the godan branch were reached,
as the third conjunct shows. -/
theorem kaku_not_classified :
    detectVerbType "書く" "kakɯ" = none ∧
    conjugationsFor "書く" "kakɯ" = [] ∧
    ("書いた", "kaita") ∈ generateConjugations "書く" "kakɯ" "godan_ru" := by
  refine ⟨by decide, ?_, by decide⟩
  rw [conjugationsFor]
  rw [show detectVerbType "書く" "kakɯ" = none from by decide]

/-- C9: the phoneme matcher is total — with fuel at least the number of
input code points, `convert`'s loop always completes with a result
(`isSome`), because each iteration either consumes a positive match
length or copies one code point and advances by 1. -/
theorem convert_total : ∀ (t : Trie) (fuel : Nat) (cs : List Char),
    cs.length ≤ fuel → (convertLoop t cs fuel).isSome = true := by
  intro t fuel
  induction fuel with
  | zero =>
    intro cs h
    have : cs = [] := by
      cases cs with
      | nil => rfl
      | cons c r => simp at h
    subst this
    simp [convertLoop]
  | succ f ih =>
    intro cs h
    cases cs with
    | nil => simp [convertLoop]
    | cons c r =>
      rw [convertLoop]
      split
      · next h0 =>
        rw [Option.isSome_map']
        refine ih _ ?_
        have := List.length_drop (lookupLoop t (c :: r) 0 (0, none)).1 (c :: r)
        simp at h ⊢
        omega
      · rw [Option.isSome_map']
        refine ih _ ?_
        simp at h ⊢
        omega

/-- C9 witness: the totality theorem applied at the singleton input あ
against the empty trie with fuel 1. -/
theorem convert_total_witness :
    (convertLoop emptyTrie ['あ'] 1).isSome = true :=
  convert_total emptyTrie 1 ['あ'] (by decide)

set_option maxRecDepth 4000 in
/-- C5 counterexample: an unrecognized major version does not make the
load fail.  The stream with magic `b'JPHO'`, major version 99, minor
version 0 and entry count 0 loads successfully. -/
theorem loader_version_counterexample :
    (tryLoadBinaryFormat [74, 80, 72, 79, 99, 0, 0, 0, 0, 0, 0, 0]).isSome = true := by
  rfl

set_option maxRecDepth 4000 in
/-- C5 (amended): the loader rejects every byte stream whose four-byte
magic differs from its constant `b'JPHO'`, but it reads and never
validates the version fields: any major/minor bytes whatsoever (second
conjunct, for an entry count of 0) still load successfully. -/
theorem loader_magic_rejected_version_ignored :
    (∀ bs : List Nat, bs.take 4 ≠ [74, 80, 72, 79] →
      tryLoadBinaryFormat bs = none) ∧
    (∀ a b c d : Nat,
      (tryLoadBinaryFormat [74, 80, 72, 79, a, b, c, d, 0, 0, 0, 0]).isSome = true) := by
  constructor
  · intro bs h
    rw [tryLoadBinaryFormat, if_neg h]
  · intro a b c d
    rw [tryLoadBinaryFormat]
    norm_num
    rfl

/-- C5 witness: the amended theorem applied to the stream `[0,0,0,0]`
(wrong magic, rejected) and to version bytes 99, 1, 255, 7 (accepted). -/
theorem loader_magic_rejected_version_ignored_witness :
    tryLoadBinaryFormat [0, 0, 0, 0] = none ∧
    (tryLoadBinaryFormat [74, 80, 72, 79, 99, 1, 255, 7, 0, 0, 0, 0]).isSome = true :=
  ⟨loader_magic_rejected_version_ignored.1 [0, 0, 0, 0] (by decide),
   loader_magic_rejected_version_ignored.2 99 1 255 7⟩

/-- C6 counterexample: conjugation expansion is not closed.  The
ichidan entry みる → miɾɯ generates the potential form
みられる → miɾaɾeɾɯ; running the engine on that generated pair yields
みられた, which is neither the original entry みる nor one of the keys
generated from みる. -/
theorem conjugation_closure_counterexample :
    ("みられる", "miɾaɾeɾɯ") ∈ conjugationsFor "みる" "miɾɯ" ∧
    "みられた" ∈ (conjugationsFor "みられる" "miɾaɾeɾɯ").map Prod.fst ∧
    "みられた" ∉ "みる" :: (conjugationsFor "みる" "miɾɯ").map Prod.fst := by
  refine ⟨by decide, by decide, by decide⟩

theorem ends_mono (w s t : String) (h : endsWithS w s = true)
    (hsub : t.toList <:+ s.toList) : endsWithS w t = true := by
  rw [endsWithS, List.isSuffixOf_iff_suffix] at h ⊢
  exact hsub.trans h

/-- C6 (amended): closure fails — a generated form ending in る (such
as the potential みられる from みる → miɾɯ, see the counterexample) is
itself classified as a verb and generates keys outside the original
output set.  What does hold: only words ending in る (or the irregulars
行く/いく) are ever classified, so every generated form not ending in る
is inert under a second run — `detect_verb_type` returns `None` on it
and the engine generates nothing. -/
theorem conjugation_second_run_inert :
    ∀ w p : String, endsWithS w "る" = false → w ≠ "行く" → w ≠ "いく" →
    detectVerbType w p = none ∧ conjugationsFor w p = [] := by
  intro w p hr h1 h2
  have hsuru : w ≠ "する" := by
    intro he
    rw [he, show endsWithS "する" "る" = true from by decide] at hr
    cases hr
  have hkuru : w ≠ "来る" := by
    intro he
    rw [he, show endsWithS "来る" "る" = true from by decide] at hr
    cases hr
  have hkuru2 : w ≠ "くる" := by
    intro he
    rw [he, show endsWithS "くる" "る" = true from by decide] at hr
    cases hr
  have haru : w ≠ "ある" := by
    intro he
    rw [he, show endsWithS "ある" "る" = true from by decide] at hr
    cases hr
  have hcsuru : endsWithS w "する" = false := by
    cases hx : endsWithS w "する"
    · rfl
    · rw [ends_mono w "する" "る" hx (by decide)] at hr
      cases hr
  have hckuru1 : endsWithS w "来る" = false := by
    cases hx : endsWithS w "来る"
    · rfl
    · rw [ends_mono w "来る" "る" hx (by decide)] at hr
      cases hr
  have hckuru2 : endsWithS w "くる" = false := by
    cases hx : endsWithS w "くる"
    · rfl
    · rw [ends_mono w "くる" "る" hx (by decide)] at hr
      cases hr
  have hdet : detectVerbType w p = none := by
    rw [detectVerbType]
    simp [hsuru, hkuru, hkuru2, haru, h1, h2, hcsuru, hckuru1, hckuru2, hr]
  exact ⟨hdet, by rw [conjugationsFor, hdet]⟩

/-- C6 witness: the amended theorem applied to the generated past form
みた → mita, which does not end in る and is therefore inert. -/
theorem conjugation_second_run_inert_witness :
    detectVerbType "みた" "mita" = none ∧ conjugationsFor "みた" "mita" = [] :=
  conjugation_second_run_inert "みた" "mita" (by decide) (by decide) (by decide)

theorem lookupLoop_ge_best : ∀ (cs : List Char) (t : Trie) (d : Nat)
    (best : Nat × Option String), best.1 ≤ d →
    best.1 ≤ (lookupLoop t cs d best).1 := by
  intro cs
  induction cs with
  | nil => intro t d best _; exact Nat.le_refl _
  | cons c r ih =>
    intro t d best hbd
    rw [lookupLoop]
    cases hc : childGet t c with
    | none => exact Nat.le_refl _
    | some child =>
      dsimp only
      cases hv : child.value with
      | some p =>
        simp only [hv]
        exact Nat.le_trans (Nat.le_succ_of_le hbd) (ih child (d + 1) (d + 1, some p) (Nat.le_refl _))
      | none =>
        simp only [hv]
        exact Nat.le_trans (Nat.le_refl _) (ih child (d + 1) best (Nat.le_trans hbd (Nat.le_succ _)))

theorem lookupLoop_reaches : ∀ (k : List Char) (t : Trie) (rest : List Char)
    (d : Nat) (best : Nat × Option String) (v : String), k ≠ [] →
    findVal t k = some v → best.1 ≤ d →
    d + k.length ≤ (lookupLoop t (k ++ rest) d best).1 := by
  intro k
  induction k with
  | nil => intro t rest d best v hne _ _; exact absurd rfl hne
  | cons c k' ih =>
    intro t rest d best v _ hfind hbd
    rw [findVal] at hfind
    cases hc : childGet t c with
    | none => rw [hc] at hfind; cases hfind
    | some child =>
      rw [hc] at hfind
      dsimp only at hfind
      rw [List.cons_append, lookupLoop, hc]
      dsimp only
      cases k' with
      | nil =>
        rw [findVal] at hfind
        rw [hfind]
        have := lookupLoop_ge_best rest child (d + 1) (d + 1, some v) (Nat.le_refl _)
        simpa using this
      | cons c2 k'' =>
        have hb' : (match child.value with
            | some p => (d + 1, some p)
            | none => best).1 ≤ d + 1 := by
          cases child.value with
          | some p => exact Nat.le_refl _
          | none => exact Nat.le_trans hbd (Nat.le_succ _)
        have := ih child rest (d + 1) _ v (by simp) hfind hb'
        simp only [List.length_cons] at this ⊢
        omega

/-- C7 counterexample: the claim "returns k₂'s value and consumed
length |k₂|" fails when a longer key also matches.  With あ → v1,
あい → v2 and あいう → v3 all inserted, the input あいう starts with
k₂ = あい (its next two code points equal k₂), yet the lookup returns
あいう's value v3 with consumed length 3, not k₂'s value v2 with
length 2. -/
theorem prefix_domination_counterexample :
    findVal (((Trie.insert emptyTrie ['あ'] "v1").insert ['あ', 'い'] "v2").insert
      ['あ', 'い', 'う'] "v3") ['あ', 'い'] = some "v2" ∧
    lookupLoop (((Trie.insert emptyTrie ['あ'] "v1").insert ['あ', 'い'] "v2").insert
      ['あ', 'い', 'う'] "v3") ['あ', 'い', 'う'] 0 (0, none) = (3, some "v3") ∧
    ((3 : Nat), some ("v3" : String)) ≠ ((2 : Nat), some ("v2" : String)) :=
  ⟨rfl, rfl, by decide⟩

/-- C7 (amended): greedy longest match dominates prefixes — whenever
the trie contains a key `k₂` (with some value) and the input at the
current position starts with `k₂`, the matcher's consumed length is at
least `|k₂|`; in particular it is never `|k₁|` for a proper prefix `k₁`
of `k₂`, so `k₁`'s match is never returned.  (The value actually
returned is that of the longest matching key, which may be even longer
than `k₂` — see the counterexample.)  The input is given as the suffix
starting at the lookup position. -/
theorem longest_match_dominates :
    ∀ (t : Trie) (k2 : List Char) (v2 : String) (cs : List Char) (k1 : List Char),
    findVal t k2 = some v2 →
    cs.take k2.length = k2 →
    k1.length < k2.length →
    k2.length ≤ (lookupLoop t cs 0 (0, none)).1 ∧
    (lookupLoop t cs 0 (0, none)).1 ≠ k1.length := by
  intro t k2 v2 cs k1 hfind htake hlt
  have hne : k2 ≠ [] := by
    intro he
    rw [he] at hlt
    simp at hlt
  have hcs : cs = k2 ++ cs.drop k2.length := by
    conv_lhs => rw [← List.take_append_drop k2.length cs]
    rw [htake]
  rw [hcs]
  have := lookupLoop_reaches k2 t (cs.drop k2.length) 0 (0, none) v2 hne hfind
    (Nat.le_refl _)
  constructor
  · simpa using this
  · simp at this
    omega

/-- C7 witness: the amended theorem applied to the trie {あ → x,
あい → y} with input あい, k₂ = あい and proper prefix k₁ = あ. -/
theorem longest_match_dominates_witness :
    (['あ', 'い'] : List Char).length ≤
      (lookupLoop ((Trie.insert emptyTrie ['あ'] "x").insert ['あ', 'い'] "y")
        ['あ', 'い'] 0 (0, none)).1 ∧
    (lookupLoop ((Trie.insert emptyTrie ['あ'] "x").insert ['あ', 'い'] "y")
      ['あ', 'い'] 0 (0, none)).1 ≠ (['あ'] : List Char).length :=
  longest_match_dominates ((Trie.insert emptyTrie ['あ'] "x").insert ['あ', 'い'] "y")
    ['あ', 'い'] "y" ['あ', 'い'] ['あ'] rfl rfl (by decide)

theorem hasValB_eq (t : Trie) :
    hasValB t = (t.value.isSome || hasValKids t.children) := by
  cases t; rfl

theorem spaceFreeB_eq (t : Trie) : spaceFreeB t = spaceFreeKids t.children := by
  cases t; rfl

theorem lookup_hasValKids_false :
    ∀ (l : List (Char × Trie)) (c : Char) (ch : Trie),
    hasValKids l = false → l.lookup c = some ch → hasValB ch = false := by
  intro l
  induction l with
  | nil => intro c ch _ h; cases h
  | cons q r ih =>
    intro c ch hval hlook
    obtain ⟨k, t⟩ := q
    rw [hasValKids] at hval
    rw [Bool.or_eq_false_iff] at hval
    rw [List.lookup] at hlook
    by_cases hck : (c == k) = true
    · rw [hck] at hlook
      cases hlook
      exact hval.1
    · rw [Bool.not_eq_true] at hck
      rw [hck] at hlook
      exact ih c ch hval.2 hlook

theorem wordMatchLenAux_noval :
    ∀ (cs : List Char) (t : Trie) (d best : Nat),
    hasValB t = false → wordMatchLenAux t cs d best = best := by
  intro cs
  induction cs with
  | nil => intro t d best _; rfl
  | cons c r ih =>
    intro t d best hnv
    rw [wordMatchLenAux]
    cases hc : childGet t c with
    | none => rfl
    | some child =>
      dsimp only
      rw [hasValB_eq, Bool.or_eq_false_iff] at hnv
      have hchild : hasValB child = false :=
        lookup_hasValKids_false t.children c child hnv.2 hc
      have hcv : child.value.isSome = false := by
        rw [hasValB_eq, Bool.or_eq_false_iff] at hchild
        exact hchild.1
      rw [hcv]
      exact ih child (d + 1) best hchild

theorem spaceFree_lookup :
    ∀ (l : List (Char × Trie)) (c : Char) (ch : Trie),
    spaceFreeKids l = true → l.lookup c = some ch →
    spaceFreeB ch = true ∧ (isSpaceC c = true → hasValB ch = false) := by
  intro l
  induction l with
  | nil => intro c ch _ h; cases h
  | cons q r ih =>
    intro c ch hsf hlook
    obtain ⟨k, t⟩ := q
    rw [spaceFreeKids, Bool.and_eq_true, Bool.and_eq_true] at hsf
    rw [List.lookup] at hlook
    by_cases hck : (c == k) = true
    · rw [hck] at hlook
      cases hlook
      refine ⟨hsf.1.2, ?_⟩
      intro hsp
      have hkc : c = k := by exact eq_of_beq hck
      have := hsf.1.1
      rw [← hkc, hsp] at this
      simp at this
      rw [this]
    · rw [Bool.not_eq_true] at hck
      rw [hck] at hlook
      exact ih c ch hsf.2 hlook

theorem wordMatch_take_nospace :
    ∀ (cs : List Char) (t : Trie) (d best : Nat),
    spaceFreeB t = true → best ≤ d →
    ∀ c' ∈ cs.take (wordMatchLenAux t cs d best - d), isSpaceC c' = false := by
  intro cs
  induction cs with
  | nil => intro t d best _ _ c' hm; simp at hm
  | cons c r ih =>
    intro t d best hsf hbd
    rw [wordMatchLenAux]
    cases hc : childGet t c with
    | none =>
      dsimp only
      rw [Nat.sub_eq_zero_of_le hbd]
      intro c' hm
      simp at hm
    | some child =>
      dsimp only
      have hlook : t.children.lookup c = some child := hc
      rw [spaceFreeB_eq] at hsf
      obtain ⟨hsfc, himp⟩ := spaceFree_lookup t.children c child hsf hlook
      by_cases hsp : isSpaceC c = true
      · have hnv : hasValB child = false := himp hsp
        have hcv : child.value.isSome = false := by
          rw [hasValB_eq, Bool.or_eq_false_iff] at hnv
          exact hnv.1
        rw [hcv]
        simp only [Bool.false_eq_true, if_false]
        rw [wordMatchLenAux_noval r child (d + 1) best hnv,
          Nat.sub_eq_zero_of_le hbd]
        intro c' hm
        simp at hm
      · have hb' : (if child.value.isSome then d + 1 else best) ≤ d + 1 := by
          split
          · exact Nat.le_refl _
          · omega
        have ihc := ih child (d + 1) _ hsfc hb'
        intro c' hm
        rcases Nat.lt_or_ge d (wordMatchLenAux child r (d + 1)
            (if child.value.isSome then d + 1 else best)) with hgt | hle
        · have hsub : wordMatchLenAux child r (d + 1)
              (if child.value.isSome then d + 1 else best) - d
              = (wordMatchLenAux child r (d + 1)
                (if child.value.isSome then d + 1 else best) - (d + 1)) + 1 := by
            omega
          rw [hsub, List.take_succ_cons] at hm
          rcases List.mem_cons.mp hm with he | hm'
          · subst he
            exact Bool.not_eq_true _ ▸ hsp
          · exact ihc c' hm'
        · rw [Nat.sub_eq_zero_of_le hle] at hm
          simp at hm

theorem grammarRun_nospace :
    ∀ (cs : List Char) (t : Trie),
    ∀ c' ∈ cs.take (grammarRun t cs), isSpaceC c' = false := by
  intro cs
  induction cs with
  | nil => intro t c' hm; simp at hm
  | cons c r ih =>
    intro t c' hm
    rw [grammarRun] at hm
    by_cases hs : isSpaceC c = true
    · rw [if_pos hs] at hm
      simp at hm
    · rw [if_neg hs] at hm
      by_cases hm0 : 0 < wordMatchLen t (c :: r)
      · rw [if_pos hm0] at hm
        simp at hm
      · rw [if_neg hm0] at hm
        have : 1 + grammarRun t r = grammarRun t r + 1 := Nat.add_comm _ _
        rw [this, List.take_succ_cons] at hm
        rcases List.mem_cons.mp hm with he | hm'
        · subst he
          exact Bool.not_eq_true _ ▸ hs
        · exact ih t c' hm'

theorem filter_eq_self_of_nospace (l : List Char)
    (h : ∀ c ∈ l, isSpaceC c = false) :
    l.filter (fun c => !(isSpaceC c)) = l := by
  rw [List.filter_eq_self]
  intro a ha
  rw [h a ha]
  rfl

/-- C8 counterexample: a dictionary key containing a space breaks the
claim.  With the key `"a b"` in the word trie, segmenting the input
`"a b"` yields the single token `"a b"`, whose concatenation still
contains the space, while the input with whitespace removed is `"ab"`. -/
theorem segmentation_space_key_counterexample :
    (segmentW (Trie.insert emptyTrie ['a', ' ', 'b'] "") ['a', ' ', 'b']).flatten
      = ['a', ' ', 'b'] ∧
    (['a', ' ', 'b'] : List Char).filter (fun c => !(isSpaceC c)) = ['a', 'b'] ∧
    (['a', ' ', 'b'] : List Char) ≠ ['a', 'b'] := by
  refine ⟨?_, by decide, by decide⟩
  simp [segmentW, wordMatchLen, wordMatchLenAux, childGet, Trie.insert, insertChild,
    emptyTrie, grammarRun, isSpaceC, Trie.children, Trie.value]

/-- C8 (amended): segmentation loses only whitespace provided no
dictionary key contains a whitespace code point (`spaceFreeB`): the
concatenation of the tokens returned by `segment`, in order, equals the
input with all space, tab, newline and carriage-return code points
removed.  (Without that proviso a matched token can retain interior
whitespace from its key — see the counterexample.) -/
theorem segmentation_loses_only_whitespace :
    ∀ (root : Trie) (cs : List Char), spaceFreeB root = true →
    (segmentW root cs).flatten = cs.filter (fun c => !(isSpaceC c)) := by
  intro root cs hsf
  have main : ∀ (n : Nat) (l : List Char), l.length ≤ n →
      (segmentW root l).flatten = l.filter (fun c => !(isSpaceC c)) := by
    intro n
    induction n with
    | zero =>
      intro l h
      cases l with
      | nil => simp [segmentW]
      | cons c r => simp at h
    | succ k ih =>
      intro l h
      cases l with
      | nil => simp [segmentW]
      | cons c r =>
        rw [segmentW]
        by_cases hs : isSpaceC c = true
        · rw [if_pos hs, List.filter_cons]
          have : (!(isSpaceC c)) = false := by rw [hs]; rfl
          rw [this]
          simp only [Bool.false_eq_true, if_false]
          exact ih r (by simp at h; omega)
        · rw [if_neg hs]
          dsimp only
          by_cases hm : 0 < wordMatchLen root (c :: r)
          · rw [if_pos hm, List.flatten_cons]
            have htok : ∀ c' ∈ (c :: r).take (wordMatchLen root (c :: r)),
                isSpaceC c' = false := by
              have := wordMatch_take_nospace (c :: r) root 0 0 hsf (Nat.le_refl 0)
              simpa [wordMatchLen] using this
            have htail := ih ((c :: r).drop (wordMatchLen root (c :: r)))
              (by simp at h ⊢; omega)
            rw [htail]
            conv_rhs =>
              rw [← List.take_append_drop (wordMatchLen root (c :: r)) (c :: r)]
            rw [List.filter_append, filter_eq_self_of_nospace _ htok]
          · rw [if_neg hm, List.flatten_cons]
            have htail := ih (r.drop (grammarRun root r)) (by simp at h ⊢; omega)
            rw [htail]
            have hcfil : (!(isSpaceC c)) = true := by
              cases hb : isSpaceC c
              · rfl
              · exact absurd hb hs
            rw [List.filter_cons, hcfil]
            simp only [if_true]
            conv_rhs => rw [← List.take_append_drop (grammarRun root r) r]
            rw [List.filter_append,
              filter_eq_self_of_nospace _ (grammarRun_nospace r root)]
            simp [List.cons_append]
  exact main cs.length cs (Nat.le_refl _)

/-- C8 witness: the amended theorem applied to the space-free word trie
{私} and the input `私 は`. -/
theorem segmentation_loses_only_whitespace_witness :
    (segmentW (Trie.insert emptyTrie ['私'] "") ['私', ' ', 'は']).flatten
      = (['私', ' ', 'は'] : List Char).filter (fun c => !(isSpaceC c)) :=
  segmentation_loses_only_whitespace (Trie.insert emptyTrie ['私'] "")
    ['私', ' ', 'は'] (by decide)

